import Mathlib

/-!
Verification development for the irisdb node-tree engine
(`src/irisdb/src/Node.ts` of the iris-docs repository).

The engine is shallowly embedded as pure Lean functions:

* `JsonVal` is the JSON value model (§3 of the design document); objects
  and arrays are mutual inductives so that all recursion over values is
  structural and therefore computable by the kernel.
* `put` / `putChildren` / `putDirUp` embed `Node.put`,
  `Node.putChildValues`, `Node.putValue` and the ancestor-propagation
  step of `Node.put` (Node.ts lines 67-125).  Node identity is its path;
  a path is modelled as the list of its segments, most derived segment
  first, so the parent of `seg :: par` is `par` and the root (id `''`)
  is `[]`.  The JavaScript is single-threaded and all adapter `set`
  calls of one `put` are awaited together, so the model executes the
  write plan sequentially in call-initiation order and records every
  initiated adapter `set` in a trace; the boolean `ok` field accumulates
  the success of every initiated `set` (the `Promise.all` of the call).
* The adapter itself is not part of the sources; its key-value store is
  modelled from the spec (§4.2), with last-write-wins `set` semantics
  ("for the same path, last call with the highest `updatedAt` should
  eventually be observable").
* `onStep` embeds the `localCallback` closure of `Node.on`
  (lines 160-185), `notifyChangeRun` the dispatch loop of
  `Node.notifyChange` (lines 200-206), `onceNotify` the wrapper of
  `Node.once` (lines 278-295), `openStep` the aggregation callback of
  `Node.open` (lines 130-145), and `getChild`/`getPath` the handle
  cache of `Node.get` (lines 54-65).
-/

/-! ## Value model (Node.ts lines 13-23, types.ts `JsonValue`) -/

mutual

inductive JsonVal : Type where
  | null : JsonVal
  | bool : Bool → JsonVal
  | num : Int → JsonVal
  | str : String → JsonVal
  | arr : JsonList → JsonVal
  | obj : JsonFields → JsonVal

inductive JsonList : Type where
  | nil : JsonList
  | cons : JsonVal → JsonList → JsonList

inductive JsonFields : Type where
  | nil : JsonFields
  | cons : String → JsonVal → JsonFields → JsonFields

end

/-- Source: `export const DIRECTORY_VALUE = {}` (Node.ts line 13). -/
def DIRECTORY_VALUE : JsonVal := JsonVal.obj JsonFields.nil

/-- Source: `isDirectory` (Node.ts lines 19-23): a value is a directory iff
it is a non-null, non-array object with zero own keys, i.e. `{}`. -/
def isDirectory : JsonVal → Bool
  | JsonVal.obj JsonFields.nil => true
  | _ => false

/-- The guard of `Node.put` (lines 97-102): a non-null, non-array object
with at least one own key takes the `putChildValues` branch. -/
def isNonEmptyObj : JsonVal → Bool
  | JsonVal.obj (JsonFields.cons _ _ _) => true
  | _ => false

/-- The own fields of an object, as a plain list (`Object.keys` order is
insertion order for string keys). -/
def fieldsList : JsonFields → List (String × JsonVal)
  | JsonFields.nil => []
  | JsonFields.cons k v tl => (k, v) :: fieldsList tl

/-! ## Paths and the adapter store

A node id (a `/`-joined string in the source) is modelled as the list of
its segments with the most derived segment first: the node with id
`'/a/b'` is `["b", "a"]`, its parent (`'/a'`) is `["a"]`, and the root is
`[]`.  `id.split('/').pop()` — the child's name inside its parent — is
then the head of the list. -/

abbrev NodePath := List String

/-- A versioned value (`NodeValue` in types.ts): the stored value, its
logical write time, and an optional advisory expiry. -/
structure NodeValue where
  value : JsonVal
  updatedAt : Nat
  expiresAt : Option Nat

/-- The path-keyed store of one adapter, modelled from the spec (§4.2);
the adapter sources are not part of the repository snapshot. -/
abbrev Store := List (NodePath × NodeValue)

def lookupStore : Store → NodePath → Option NodeValue
  | [], _ => none
  | (q, nv) :: tl, p => if q = p then some nv else lookupStore tl p

def eraseKey : Store → NodePath → Store
  | [], _ => []
  | (q, nv) :: tl, p => if q = p then eraseKey tl p else (q, nv) :: eraseKey tl p

/-- Modelled from the spec: adapter `set(path, versionedValue)` (§4.2).
The adapter implementations (LocalStorageMemoryAdapter and friends) are
not under the repository sources; per the contract, for the same path
the last call with the highest `updatedAt` is the one observable by
`get`/`list`, so a `set` is dropped exactly when a strictly newer value
is already stored. -/
def setStore (s : Store) (p : NodePath) (nv : NodeValue) : Store :=
  match lookupStore s p with
  | some old => if nv.updatedAt < old.updatedAt then s else (p, nv) :: eraseKey s p
  | none => (p, nv) :: s

/-- The effect of one `set` on the value observable at its own path:
a strictly newer stored value survives, otherwise the written value is
observable. -/
def lwwApply (nv : NodeValue) : Option NodeValue → Option NodeValue
  | some old => if nv.updatedAt < old.updatedAt then some old else some nv
  | none => some nv

/-- Modelled from the spec: adapter `list(path, cb)` (§4.2) notifies once
per direct child of `path` present in the store. Direct children of `p`
are the stored paths of the form `seg :: p`. -/
def listChildren (s : Store) (p : NodePath) : List (NodePath × NodeValue) :=
  s.filter (fun e => e.1.length = p.length + 1 && e.1.drop 1 = p)

/-! ## The engine state and the write path (`Node.put`) -/

/-- One initiated adapter `set` call, in call-initiation order. -/
structure SetEvent where
  path : NodePath
  value : JsonVal
  updatedAt : Nat
  expiresAt : Option Nat

/-- The state the write path acts on: the adapter store, the per-node
cache of child handles (`Node.children`), the chronological trace of
initiated adapter `set` calls, and the accumulated success of all of
them (`Promise.all`: the call fails iff any initiated `set` fails). -/
structure EngState where
  store : Store
  cache : NodePath → List String
  trace : List SetEvent
  ok : Bool

section PutModel

/- Whether an individual adapter `set` succeeds; `put` resolves iff all
the `set` calls it awaits succeed (`await Promise.all(...)`). -/
variable (adapterOk : SetEvent → Bool)

def emit (s : EngState) (e : SetEvent) : EngState :=
  { store := setStore s.store e.path ⟨e.value, e.updatedAt, e.expiresAt⟩
    cache := s.cache
    trace := s.trace ++ [e]
    ok := s.ok && adapterOk e }

/-- Source: `Node.get`'s cache insertion and the
`parent.children.set(childName, this)` step of `put` (lines 56-59 and 111-113): record `k` as a cached
child of `p` if not already present. -/
def cacheAdd (s : EngState) (p : NodePath) (k : String) : EngState :=
  if k ∈ s.cache p then s
  else { s with cache := fun q => if q = p then k :: s.cache p else s.cache q }

/-- Source: `this.children = new Map()` (line 69). -/
def clearChildren (s : EngState) (p : NodePath) : EngState :=
  { s with cache := fun q => if q = p then [] else s.cache q }

/-- Source: `Node.putValue` (lines 67-79): clear the child cache unless the
value is a directory, then initiate `adapter.set(this.id, nodeValue)` on
every adapter.  (The synchronous `notifyChange` call is modelled
separately by `notifyChangeRun`; it does not touch this state.) -/
def putValue (s : EngState) (p : NodePath) (v : JsonVal) (t : Nat) (exp : Option Nat) : EngState :=
  emit adapterOk (if isDirectory v then s else clearChildren s p) ⟨p, v, t, exp⟩

/-- The ancestor-propagation chain of `Node.put` (lines 108-113) for a
directory-marker write: `put(DIRECTORY_VALUE, updatedAt)` on a node is
`putValue` (the marker has no keys), followed, when the node has a
parent, by the same recursive call on the parent and the insertion of
the node into the parent's child cache. -/
def putDirUp (t : Nat) : NodePath → EngState → EngState
  | [], s => putValue adapterOk s [] DIRECTORY_VALUE t none
  | seg :: par, s =>
      cacheAdd (putDirUp t par (putValue adapterOk s (seg :: par) DIRECTORY_VALUE t none)) par seg

mutual

/-- Source: `Node.put` (lines 96-125).  A non-empty plain object takes the
`putChildValues` branch (initiate the directory-marker `set` for this
node, then `get` and recursively `put` each key); any other value takes
the `putValue` branch.  Afterwards, if the node has a parent, the
directory marker is `put` on the parent with the same `updatedAt` (the
whole ancestor chain, via `putDirUp`) and this node is ensured to be in
the parent's child cache.  (The loop over the parent's
`map_subscriptions` only invokes callbacks; it does not change this
state.) -/
def put : NodePath → JsonVal → Nat → Option Nat → EngState → EngState
  | p, v, t, exp, s =>
    let s₁ := match v with
      | JsonVal.obj (JsonFields.cons k v0 tl) =>
          putChildren p (JsonFields.cons k v0 tl) t
            (emit adapterOk s ⟨p, DIRECTORY_VALUE, t, exp⟩)
      | _ => putValue adapterOk s p v t exp
    match p with
    | [] => s₁
    | seg :: par => cacheAdd (putDirUp adapterOk t par s₁) par seg

/-- The per-key part of `Node.putChildValues` (lines 85-88):
`children.map((key) => this.get(key).put(value[key], updatedAt))` —
for each own key, cache the child handle and recursively `put` that
key's value with the same `updatedAt` (and no `expiresAt`). -/
def putChildren : NodePath → JsonFields → Nat → EngState → EngState
  | _, JsonFields.nil, _, s => s
  | p, JsonFields.cons k vk tl, t, s =>
      putChildren p tl t (put (k :: p) vk t none (cacheAdd s p k))

end

end PutModel

/-- The empty initial state: nothing stored, no cached children, no
initiated writes, success so far. -/
def engInit : EngState := ⟨[], fun _ => [], [], true⟩

/-! ## The `on` subscription state machine (Node.ts lines 150-198)

`Node.on` installs one closure, `localCallback`, as the handler for
every notification source of the subscription: it is registered in the
node's `on_subscriptions` table (served by the in-process
`notifyChange` fast path) and passed to `adapter.get` of every
configured adapter.  Whatever the source, each incoming notification
runs the same closure over the same captured state, so the closure is
modelled as one step function on that state. -/

/-- The mutable state captured by `localCallback`: `latestValue` (set
only from notifications whose value and `updatedAt` are both defined)
and whether the nested `open` subscription has been started
(`openUnsubscribe` is assigned at most once). -/
structure OnState where
  latestValue : Option (JsonVal × Nat)
  openStarted : Bool

/-- Source behaviour of `isDirectory` on a possibly-`undefined` value: in the
source, `isDirectory(undefined)` is `false` (`typeof undefined` is not
`'object'`). -/
def isDirOpt : Option JsonVal → Bool
  | some v => isDirectory v
  | none => false

/-- Source: `olderThanLatest` (lines 161-162): `latestValue !== null &&
updatedAt !== undefined && latestValue.updatedAt >= updatedAt`. -/
def olderThanLatest (latest : Option (JsonVal × Nat)) (t : Option Nat) : Bool :=
  match latest, t with
  | some lv, some tn => decide (tn ≤ lv.2)
  | _, _ => false

/-- Lines 174-176: `latestValue` is reassigned exactly when both the
value and the timestamp are defined. -/
def recordLatest (s : OnState) (v : Option JsonVal) (t : Option Nat) : OnState :=
  match v, t with
  | some vv, some tn => { latestValue := some (vv, tn), openStarted := s.openStarted }
  | _, _ => s

/-- Lines 178-180: a directory value with a positive recursion budget
starts the nested `open` subscription, once
(`isDirectory(value) && recursion > 0 && !openUnsubscribe`). -/
def onSpawn (rec : Nat) (s1 : OnState) (v : Option JsonVal) : Bool :=
  isDirOpt v && !(rec == 0) && !s1.openStarted

/-- The captured state after the non-dropping branch of
`localCallback`: `latestValue` possibly updated, `openStarted` set when
the nested `open` is started by this notification. -/
def onDeliverState (rec : Nat) (s1 : OnState) (v : Option JsonVal) : OnState :=
  if onSpawn rec s1 v then { s1 with openStarted := true } else s1

/-- One run of `localCallback` (lines 160-185) on an incoming
notification `(v, t)`; `v = none` and `t = none` model `undefined`.
Returns the new captured state, whether the subscriber's callback was
invoked, and whether a nested `open` subscription was started by this
notification.  Dropping branches, in source order: `olderThanLatest`,
`noReturnUndefined`; then the first-`undefined` delivery when
`returnIfUndefined` is set; then `latestValue` is updated when both the
value and the timestamp are defined; a directory value with a positive
recursion budget starts the nested `open` (once) and is not handed to
the callback (line 182: the callback runs iff `!isDirectory(value) ||
recursion === 0`). -/
def onStep (rif : Bool) (rec : Nat) (s : OnState) (v : Option JsonVal) (t : Option Nat) :
    OnState × Bool × Bool :=
  if olderThanLatest s.latestValue t || (!rif && v.isNone) then (s, false, false)
  else if s.latestValue.isNone && rif && v.isNone then (s, true, false)
  else
    (onDeliverState rec (recordLatest s v t) v, !isDirOpt v || rec == 0,
      onSpawn rec (recordLatest s v t) v)

/-! ## The `notifyChange` dispatch loop (Node.ts lines 200-206) -/

/-- One run of `Node.notifyChange` over the `on_subscriptions` table
(a JavaScript `Map` iterates in insertion order).  Each entry is
`(id, recursion)`; `throws id` models a subscriber callback that throws.
The loop body has no try/catch: `callback(...)` is called directly
inside `forEach`, so an exception propagates out of `forEach` and ends
the iteration.  Returns the ids whose callbacks were invoked (in order)
and whether the loop ran to completion. -/
def notifyChangeRun (subs : List (Nat × Nat)) (v : JsonVal) (throws : Nat → Bool) :
    List Nat × Bool :=
  match subs with
  | [] => ([], true)
  | (id, rec) :: rest =>
    if !(rec == 0) && isDirectory v then notifyChangeRun rest v throws
    else if throws id then ([id], false)
    else
      let r := notifyChangeRun rest v throws
      (id :: r.1, r.2)

/-! ## The `once` wrapper (Node.ts lines 278-295)

`once` wraps the caller's callback in `cb`, guards it with a `resolved`
flag, and passes `cb` to `this.on(...)` — whose returned
`unsubscribeAll` is discarded.  On first delivery `cb` resolves the
promise, invokes the caller's callback, and calls the *fourth argument*
of the notification.  That argument is `() => {}` when the notification
came through the in-process `notifyChange` fast path (line 203), and the
single adapter subscription's own unsubscriber when it came through
`adapter.get` (modelled from the spec, §4.2/§6: `get` hands its
callback its own unsubscribe). -/

/-- Which channel delivered a notification to `localCallback`. -/
inductive NotifSource : Type where
  | inProcess : NotifSource
  | adapterGet : Nat → NotifSource

/-- The state of one `once` subscription after registration: whether its
entry is still in `on_subscriptions`, which adapter `get` subscriptions
are still active, the `localCallback` captured state, the `resolved`
flag, and counters of promise resolutions and caller-callback
invocations. -/
structure OnceSys where
  onEntry : Bool
  adapterSubs : List Bool
  onState : OnState
  resolved : Bool
  resolveCount : Nat
  cbCount : Nat

/-- Delivery of one notification to a `once` subscription.  The gate is
the delivering channel: `notifyChange` iterates `on_subscriptions` (and
skips directory values for positive recursion budgets, line 202), an
adapter only notifies while its `get` subscription is active.  The
notification then runs `localCallback` (`onStep`); if the callback layer
delivers, `once`'s `cb` runs: an already-`resolved` subscription returns
immediately, otherwise it resolves, invokes the caller's callback, and
calls the notification's fourth argument — a no-op for the in-process
path, the single adapter's unsubscriber for an adapter notification. -/
def onceNotify (rif : Bool) (rec : Nat) (sys : OnceSys) (src : NotifSource)
    (v : Option JsonVal) (t : Option Nat) : OnceSys :=
  let gate : Bool :=
    match src with
    | NotifSource.inProcess => sys.onEntry && !(!(rec == 0) && isDirOpt v)
    | NotifSource.adapterGet i => sys.adapterSubs.getD i false
  if !gate then sys
  else
    let r := onStep rif rec sys.onState v t
    let sys1 : OnceSys := { sys with onState := r.1 }
    if r.2.1 then
      if sys1.resolved then sys1
      else
        let sys2 : OnceSys :=
          { sys1 with
            resolved := true
            resolveCount := sys1.resolveCount + 1
            cbCount := sys1.cbCount + 1 }
        match src with
        | NotifSource.inProcess => sys2
        | NotifSource.adapterGet i => { sys2 with adapterSubs := sys2.adapterSubs.set i false }
    else sys1

/-- A `once` subscription right after `this.on(cb, ...)` registered it:
table entry present, one adapter `get` subscription active, nothing
seen, nothing resolved. -/
def onceInit : OnceSys := ⟨true, [true], ⟨none, false⟩, false, 0, 0⟩

/-! ## Unsubscribe functions (Node.ts lines 191-197 and 265-271)

A `map` subscription owns: its entry in the node's `map_subscriptions`
table, one `adapter.list` subscription per adapter, and a dictionary of
nested `open` subscriptions (`openUnsubs`), each of which is itself
built on a `map` subscription (`open` returns `this.map(...)`'s
unsubscriber).  An `on` subscription owns its `on_subscriptions` entry,
one `adapter.get` subscription per adapter, and at most one nested
`open` subscription.  Adapter-level unsubscribing is modelled from the
spec contract as deactivating that adapter subscription. -/

mutual

inductive MapSub : Type where
  | mk : Bool → List Bool → MapSubs → MapSub

inductive MapSubs : Type where
  | nil : MapSubs
  | cons : MapSub → MapSubs → MapSubs

end

/-- The `map_subscriptions` entry flag of a `map` subscription. -/
def MapSub.entry : MapSub → Bool
  | MapSub.mk e _ _ => e

mutual

/-- The unsubscriber returned by `Node.map` (lines 265-269): delete the
`map_subscriptions` entry, unsubscribe from every adapter, and
unsubscribe every nested `open`. -/
def MapSub.unsub : MapSub → MapSub
  | MapSub.mk _ a n => MapSub.mk false (a.map fun _ => false) (MapSubs.unsubAll n)

def MapSubs.unsubAll : MapSubs → MapSubs
  | MapSubs.nil => MapSubs.nil
  | MapSubs.cons m rest => MapSubs.cons (MapSub.unsub m) (MapSubs.unsubAll rest)

end

mutual

/-- Whether any notification channel of the subscription is still
active: its own table entry (the in-process fast path), any adapter
subscription, or any channel of a nested subscription. -/
def MapSub.anyActive : MapSub → Bool
  | MapSub.mk e a n => e || a.any id || MapSubs.anyActiveList n

def MapSubs.anyActiveList : MapSubs → Bool
  | MapSubs.nil => false
  | MapSubs.cons m rest => MapSub.anyActive m || MapSubs.anyActiveList rest

end

/-- The state owned by one `on` subscription: its `on_subscriptions`
entry, its per-adapter `get` subscriptions, and the nested `open`
subscription if `localCallback` has started one. -/
structure OnSub where
  entry : Bool
  adapterSubs : List Bool
  nestedOpen : Option MapSub

/-- Source: `unsubscribeAll` (lines 191-195): delete the `on_subscriptions`
entry, call every adapter unsubscriber, call `openUnsubscribe?.()`. -/
def OnSub.unsubAll (s : OnSub) : OnSub :=
  ⟨false, s.adapterSubs.map fun _ => false, s.nestedOpen.map MapSub.unsub⟩

/-- Whether any notification channel of an `on` subscription is still
active. -/
def OnSub.anyActive (s : OnSub) : Bool :=
  s.entry || s.adapterSubs.any id ||
    (match s.nestedOpen with
     | some m => MapSub.anyActive m
     | none => false)

/-! ## The `open` aggregation callback (Node.ts lines 130-145) -/

/-- The aggregate state captured by `open`'s closure: the `aggregated`
object (an insertion-ordered association list, as a JavaScript object
with string keys) and `latestTime`. -/
structure OpenAggState where
  aggregated : List (String × JsonVal)
  latestTime : Option Nat

/-- Source: `aggregated[childName] = childValue`: update an existing key in
place, or append a new key. -/
def setAssoc : List (String × JsonVal) → String → JsonVal → List (String × JsonVal)
  | [], k, v => [(k, v)]
  | (k', v') :: tl, k, v =>
      if k' = k then (k, v) :: tl else (k', v') :: setAssoc tl k v

/-- One invocation of the subscriber callback made by `open` (line 143):
the whole current aggregate, the node's own id, the running maximum
timestamp, and the fourth argument — the function the callback may call
to unsubscribe, modelled by its effect on the underlying `map`
subscription state. -/
structure OpenInvocation where
  aggregated : List (String × JsonVal)
  nodeId : NodePath
  latestTime : Option Nat
  unsubArg : MapSub → MapSub

/-- One run of the callback `open` hands to `this.map` (lines 137-144):
raise `latestTime` when the child's `updatedAt` is defined and
`!latestTime || latestTime < updatedAt` (note `!latestTime` is a JS
falsiness test: it also holds for the timestamp `0`), store the child
value under its name (`path.split('/').pop()`, the head of the reversed
segment list), and invoke the subscriber with the whole aggregate and
the literal `() => {}` as its unsubscribe argument. -/
def openStep (nodeId : NodePath) (st : OpenAggState) (childValue : JsonVal)
    (path : NodePath) (updatedAt : Option Nat) : OpenAggState × OpenInvocation :=
  let lt : Option Nat :=
    match updatedAt, st.latestTime with
    | some u, none => some u
    | some u, some l => if l == 0 || l < u then some u else some l
    | none, l => l
  let childName := path.headD ""
  let agg := setAssoc st.aggregated childName childValue
  (⟨agg, lt⟩, ⟨agg, nodeId, lt, fun m => m⟩)

/-- The Unsubscribe value `open` itself returns (line 137: `return
this.map(...)`) is the underlying `map` subscription's unsubscriber. -/
def openReturnedUnsub : MapSub → MapSub := MapSub.unsub

/-! ## The handle cache of `Node.get` (Node.ts lines 54-65)

`get` resolves a slash-separated key one segment at a time against the
node's `children` cache, creating and caching a missing child before
recursing into the remaining segments.  Handle identity is modelled by
allocating a fresh numeric id for every `new Node(...)`; the edges list
is the union of all `children` maps, keyed by (parent handle, segment).
Keys are modelled pre-split into their segment lists (in the source the
key is split on `'/'` at each step and the remainder re-joined, which
round-trips for ordinary segments). -/

structure GetState where
  nextId : Nat
  edges : List (Nat × String × Nat)

def findChild (es : List (Nat × String × Nat)) (n : Nat) (seg : String) : Option Nat :=
  match es with
  | [] => none
  | (m, sg, c) :: tl => if m = n ∧ sg = seg then some c else findChild tl n seg

/-- One step of `Node.get` (lines 56-60): look the segment up in the
`children` cache; on a miss, create the child node and cache it. -/
def getChild (s : GetState) (n : Nat) (seg : String) : GetState × Nat :=
  match findChild s.edges n seg with
  | some c => (s, c)
  | none => (⟨s.nextId + 1, (n, seg, s.nextId) :: s.edges⟩, s.nextId)

/-- Source: `Node.get` on a multi-segment key (lines 54-65): resolve the first
segment, then recurse into the rest from the resolved child. -/
def getPath (s : GetState) (n : Nat) : List String → GetState × Nat
  | [] => (s, n)
  | seg :: rest =>
      let r := getChild s n seg
      getPath r.1 r.2 rest

/-! ## Basic store and state lemmas -/

theorem lookup_eraseKey (s : Store) (p q : NodePath) :
    lookupStore (eraseKey s p) q = if q = p then none else lookupStore s q := by
  induction s with
  | nil => simp [eraseKey, lookupStore]
  | cons e tl ih =>
    obtain ⟨r, nv⟩ := e
    simp only [eraseKey]
    by_cases hrp : r = p
    · rw [if_pos hrp, ih]
      by_cases hqp : q = p
      · rw [if_pos hqp, if_pos hqp]
      · rw [if_neg hqp, if_neg hqp]
        simp only [lookupStore]
        rw [if_neg (fun h : r = q => hqp (h ▸ hrp))]
    · rw [if_neg hrp]
      simp only [lookupStore]
      by_cases hrq : r = q
      · rw [if_pos hrq, if_neg (fun h : q = p => hrp (hrq.trans h)), if_pos hrq]
      · rw [if_neg hrq, ih]
        by_cases hqp : q = p
        · rw [if_pos hqp, if_pos hqp]
        · rw [if_neg hqp, if_neg hqp, if_neg hrq]

theorem lookup_set (s : Store) (p : NodePath) (nv : NodeValue) (q : NodePath) :
    lookupStore (setStore s p nv) q =
      if q = p then lwwApply nv (lookupStore s p) else lookupStore s q := by
  unfold setStore
  cases h : lookupStore s p with
  | none =>
    by_cases hqp : q = p
    · simp [lookupStore, hqp, lwwApply, h]
    · simp [lookupStore, hqp, lwwApply, h]
      intro he
      exact absurd he.symm hqp
  | some old =>
    by_cases hlt : nv.updatedAt < old.updatedAt
    · by_cases hqp : q = p <;> simp [lookupStore, hqp, lwwApply, h, hlt]
    · by_cases hqp : q = p
      · simp [lookupStore, hqp, lwwApply, h, hlt, lookup_eraseKey]
      · simp [lookupStore, hqp, lwwApply, h, hlt, lookup_eraseKey]
        intro he
        exact absurd he.symm hqp

theorem lwwApply_same_time (nv nv' : NodeValue) (o : Option NodeValue)
    (h : nv.updatedAt = nv'.updatedAt) :
    lwwApply nv (lwwApply nv' o) = lwwApply nv o := by
  cases o with
  | none =>
    simp only [lwwApply]
    rw [if_neg (by simp [h])]
  | some old =>
    by_cases hlt : nv'.updatedAt < old.updatedAt
    · simp only [lwwApply, if_pos hlt, if_pos (h ▸ hlt)]
    · simp only [lwwApply, if_neg hlt]
      rw [if_neg (by simp [h]), if_neg (h ▸ hlt)]

section PutLemmas

variable (adapterOk : SetEvent → Bool)

/-- The trace/success relation between a state and the state after some
engine steps: the trace is extended by the newly initiated `set` calls
and success accumulates exactly their success (`Promise.all`). -/
def ExtOf (s s' : EngState) : Prop :=
  ∃ Δ, s'.trace = s.trace ++ Δ ∧ s'.ok = (s.ok && Δ.all adapterOk)

theorem extOf_refl (s : EngState) : ExtOf adapterOk s s :=
  ⟨[], by simp⟩

theorem extOf_trans {s s' s'' : EngState} (h1 : ExtOf adapterOk s s')
    (h2 : ExtOf adapterOk s' s'') : ExtOf adapterOk s s'' := by
  obtain ⟨d1, ht1, ho1⟩ := h1
  obtain ⟨d2, ht2, ho2⟩ := h2
  exact ⟨d1 ++ d2, by simp [ht2, ht1, ho2, ho1, Bool.and_assoc]⟩

theorem extOf_emit (s : EngState) (e : SetEvent) :
    ExtOf adapterOk s (emit adapterOk s e) :=
  ⟨[e], by simp [emit]⟩

theorem extOf_cacheAdd (s : EngState) (p : NodePath) (k : String) :
    ExtOf adapterOk s (cacheAdd s p k) := by
  refine ⟨[], ?_⟩
  unfold cacheAdd
  by_cases h : k ∈ s.cache p <;> simp [h]

theorem extOf_clearChildren (s : EngState) (p : NodePath) :
    ExtOf adapterOk s (clearChildren s p) :=
  ⟨[], by simp [clearChildren]⟩

theorem extOf_putValue (s : EngState) (p : NodePath) (v : JsonVal) (t : Nat)
    (exp : Option Nat) : ExtOf adapterOk s (putValue adapterOk s p v t exp) := by
  unfold putValue
  by_cases h : isDirectory v
  · simpa [h] using extOf_emit adapterOk s ⟨p, v, t, exp⟩
  · simp only [h, if_neg, Bool.false_eq_true, if_false]
    exact extOf_trans adapterOk (extOf_clearChildren adapterOk s p)
      (extOf_emit adapterOk (clearChildren s p) ⟨p, v, t, exp⟩)

theorem mem_trace_of_extOf {s s' : EngState} (h : ExtOf adapterOk s s')
    {e : SetEvent} (he : e ∈ s.trace) : e ∈ s'.trace := by
  obtain ⟨d, ht, _⟩ := h
  simp [ht, he]

/-! Component effects of the elementary steps. -/

theorem emit_store (s : EngState) (e : SetEvent) :
    (emit adapterOk s e).store = setStore s.store e.path ⟨e.value, e.updatedAt, e.expiresAt⟩ := rfl

theorem emit_cache (s : EngState) (e : SetEvent) : (emit adapterOk s e).cache = s.cache := rfl

theorem cacheAdd_store (s : EngState) (p : NodePath) (k : String) :
    (cacheAdd s p k).store = s.store := by
  unfold cacheAdd
  by_cases h : k ∈ s.cache p <;> simp [h]

theorem cacheAdd_trace (s : EngState) (p : NodePath) (k : String) :
    (cacheAdd s p k).trace = s.trace := by
  unfold cacheAdd
  by_cases h : k ∈ s.cache p <;> simp [h]

theorem cacheAdd_cache_ne (s : EngState) (p : NodePath) (k : String) (q : NodePath)
    (h : q ≠ p) : (cacheAdd s p k).cache q = s.cache q := by
  unfold cacheAdd
  by_cases hm : k ∈ s.cache p <;> simp [hm, h]

theorem mem_cacheAdd_self (s : EngState) (p : NodePath) (k : String) :
    k ∈ (cacheAdd s p k).cache p := by
  unfold cacheAdd
  by_cases hm : k ∈ s.cache p <;> simp [hm]

theorem clearChildren_cache_ne (s : EngState) (p q : NodePath) (h : q ≠ p) :
    (clearChildren s p).cache q = s.cache q := by
  simp [clearChildren, h]

theorem putValue_store (s : EngState) (p : NodePath) (v : JsonVal) (t : Nat)
    (exp : Option Nat) :
    (putValue adapterOk s p v t exp).store = setStore s.store p ⟨v, t, exp⟩ := by
  unfold putValue
  by_cases h : isDirectory v <;> simp [h, emit, clearChildren]

theorem putValue_cache_dir (s : EngState) (p : NodePath) (v : JsonVal) (t : Nat)
    (exp : Option Nat) (h : isDirectory v = true) :
    (putValue adapterOk s p v t exp).cache = s.cache := by
  simp [putValue, h, emit]

theorem putValue_cache_leaf (s : EngState) (p : NodePath) (v : JsonVal) (t : Nat)
    (exp : Option Nat) (h : isDirectory v = false) :
    (putValue adapterOk s p v t exp).cache =
      fun q => if q = p then [] else s.cache q := by
  simp [putValue, h, emit, clearChildren]

end PutLemmas

/-- Model coherence: a `put` of the directory marker with no
`expiresAt` — exactly the call the ancestor propagation makes,
`this.parent.put(DIRECTORY_VALUE, updatedAt)` — is the ancestor chain
`putDirUp`: the marker has no keys, so it takes the `putValue` branch
and then propagates further up. -/
theorem put_dir_eq_putDirUp (adapterOk : SetEvent → Bool) (p : NodePath) (t : Nat)
    (s : EngState) :
    put adapterOk p DIRECTORY_VALUE t none s = putDirUp adapterOk t p s := by
  cases p <;> rfl

/-! ## Lemmas about the ancestor chain (`putDirUp`) -/

section DirUpLemmas

variable (adapterOk : SetEvent → Bool)

theorem extOf_putDirUp (t : Nat) : ∀ (p : NodePath) (s : EngState),
    ExtOf adapterOk s (putDirUp adapterOk t p s)
  | [], s => extOf_putValue adapterOk s [] DIRECTORY_VALUE t none
  | seg :: par, s =>
    extOf_trans adapterOk
      (extOf_trans adapterOk
        (extOf_putValue adapterOk s (seg :: par) DIRECTORY_VALUE t none)
        (extOf_putDirUp t par (putValue adapterOk s (seg :: par) DIRECTORY_VALUE t none)))
      (extOf_cacheAdd adapterOk _ par seg)

/-- Every `set` the ancestor chain initiates carries the directory
marker and the propagated timestamp; one is initiated at every node of
the chain. -/
theorem putDirUp_emits (t : Nat) : ∀ (p : NodePath) (s : EngState) (j : Nat),
    j ≤ p.length →
    (⟨p.drop j, DIRECTORY_VALUE, t, none⟩ : SetEvent) ∈ (putDirUp adapterOk t p s).trace
  | [], s, j, hj => by
    have hj0 : j = 0 := Nat.le_zero.mp hj
    subst hj0
    simp only [putDirUp, putValue, isDirectory, DIRECTORY_VALUE, emit, List.drop_nil]
    simp
  | seg :: par, s, 0, _ => by
    have h1 : (⟨seg :: par, DIRECTORY_VALUE, t, none⟩ : SetEvent) ∈
        (putValue adapterOk s (seg :: par) DIRECTORY_VALUE t none).trace := by
      simp [putValue, isDirectory, DIRECTORY_VALUE, emit]
    have h2 := mem_trace_of_extOf adapterOk
      (extOf_putDirUp adapterOk t par (putValue adapterOk s (seg :: par) DIRECTORY_VALUE t none)) h1
    simpa [putDirUp, cacheAdd_trace] using h2
  | seg :: par, s, j + 1, hj => by
    have hj' : j ≤ par.length := by simpa using hj
    have h1 := putDirUp_emits t par (putValue adapterOk s (seg :: par) DIRECTORY_VALUE t none) j hj'
    simpa [putDirUp, cacheAdd_trace] using h1

/-- The ancestor chain leaves every path outside the chain untouched in
the store. -/
theorem putDirUp_store_off_chain (t : Nat) : ∀ (p : NodePath) (s : EngState) (q : NodePath),
    (∀ j, j ≤ p.length → q ≠ p.drop j) →
    lookupStore (putDirUp adapterOk t p s).store q = lookupStore s.store q
  | [], s, q, hq => by
    have hq0 : q ≠ [] := by simpa using hq 0 (Nat.le_refl 0)
    simp only [putDirUp]
    rw [putValue_store, lookup_set, if_neg hq0]
  | seg :: par, s, q, hq => by
    simp only [putDirUp]
    rw [cacheAdd_store, putDirUp_store_off_chain t par _ q
      (fun j hj => by
        have := hq (j + 1) (by simpa using hj)
        simpa using this)]
    rw [putValue_store, lookup_set, if_neg (by simpa using hq 0 (Nat.zero_le _))]

/-- The store effect of the ancestor chain at the chain's own nodes:
each receives exactly one observable last-write-wins application of the
directory marker at time `t`. -/
theorem putDirUp_store_chain (t : Nat) : ∀ (p : NodePath) (s : EngState) (j : Nat),
    j ≤ p.length →
    lookupStore (putDirUp adapterOk t p s).store (p.drop j) =
      lwwApply ⟨DIRECTORY_VALUE, t, none⟩ (lookupStore s.store (p.drop j))
  | [], s, j, hj => by
    have hj0 : j = 0 := Nat.le_zero.mp hj
    subst hj0
    simp only [putDirUp, List.drop_nil]
    rw [putValue_store]
    simp [lookup_set]
  | seg :: par, s, 0, _ => by
    simp only [putDirUp, List.drop_zero]
    rw [cacheAdd_store, putDirUp_store_off_chain adapterOk t par _ (seg :: par)
      (fun j hj => by
        intro hc
        have : (seg :: par).length = (par.drop j).length := by rw [hc]
        simp only [List.length_cons, List.length_drop] at this
        omega)]
    rw [putValue_store, lookup_set]
    simp
  | seg :: par, s, j + 1, hj => by
    have hj' : j ≤ par.length := by simpa using hj
    simp only [putDirUp, List.drop_succ_cons]
    rw [cacheAdd_store, putDirUp_store_chain t par _ j hj']
    rw [putValue_store, lookup_set]
    rw [if_neg (by
      intro hc
      have : (par.drop j).length = (seg :: par).length := by rw [hc]
      simp only [List.length_cons, List.length_drop] at this
      omega)]

/-- The ancestor chain only inserts into child caches of nodes strictly
above `p`; every cache at a path at least as long as `p` is unchanged. -/
theorem putDirUp_cache_ge (t : Nat) : ∀ (p : NodePath) (s : EngState) (q : NodePath),
    p.length ≤ q.length → (putDirUp adapterOk t p s).cache q = s.cache q
  | [], s, q, _ => by
    simp only [putDirUp]
    rw [putValue_cache_dir]
    rfl
  | seg :: par, s, q, hq => by
    simp only [putDirUp]
    rw [cacheAdd_cache_ne _ _ _ _ (by
      intro hc
      have : q.length = par.length := by rw [hc]
      simp only [List.length_cons] at hq
      omega)]
    rw [putDirUp_cache_ge t par _ q (by simp only [List.length_cons] at hq; omega)]
    rw [putValue_cache_dir]
    rfl

end DirUpLemmas

/-! ## Unfolding `put` -/

section PutUnfold

variable (adapterOk : SetEvent → Bool)

/-- The branch of `Node.put` before the ancestor-propagation step (the
body of lines 97-106). -/
def putLocalPart (p : NodePath) (v : JsonVal) (t : Nat) (exp : Option Nat)
    (s : EngState) : EngState :=
  match v with
  | JsonVal.obj (JsonFields.cons k v0 tl) =>
      putChildren adapterOk p (JsonFields.cons k v0 tl) t
        (emit adapterOk s ⟨p, DIRECTORY_VALUE, t, exp⟩)
  | _ => putValue adapterOk s p v t exp

theorem put_unfold (p : NodePath) (v : JsonVal) (t : Nat) (exp : Option Nat)
    (s : EngState) :
    put adapterOk p v t exp s =
      match p with
      | [] => putLocalPart adapterOk p v t exp s
      | seg :: par =>
          cacheAdd (putDirUp adapterOk t par (putLocalPart adapterOk p v t exp s)) par seg := by
  cases v with
  | null => rfl
  | bool b => rfl
  | num n => rfl
  | str st => rfl
  | arr xs => rfl
  | obj fs =>
    cases fs with
    | nil => rfl
    | cons k v0 tl => rfl

theorem putLocalPart_leaf (p : NodePath) (v : JsonVal) (t : Nat) (exp : Option Nat)
    (s : EngState) (hv : isNonEmptyObj v = false) :
    putLocalPart adapterOk p v t exp s = putValue adapterOk s p v t exp := by
  cases v with
  | null => rfl
  | bool b => rfl
  | num n => rfl
  | str st => rfl
  | arr xs => rfl
  | obj fs =>
    cases fs with
    | nil => rfl
    | cons k v0 tl => simp [isNonEmptyObj] at hv

theorem putLocalPart_obj (p : NodePath) (k : String) (v0 : JsonVal) (tl : JsonFields)
    (t : Nat) (exp : Option Nat) (s : EngState) :
    putLocalPart adapterOk p (JsonVal.obj (JsonFields.cons k v0 tl)) t exp s =
      putChildren adapterOk p (JsonFields.cons k v0 tl) t
        (emit adapterOk s ⟨p, DIRECTORY_VALUE, t, exp⟩) := rfl

end PutUnfold

/-! ## Mutual lemmas about `put` and `putChildren` -/

section PutMutualLemmas

variable (adapterOk : SetEvent → Bool)

theorem extOf_putLocalPart_leaf (p : NodePath) (v : JsonVal) (t : Nat)
    (exp : Option Nat) (s : EngState) (hv : isNonEmptyObj v = false) :
    ExtOf adapterOk s (putLocalPart adapterOk p v t exp s) := by
  rw [putLocalPart_leaf adapterOk p v t exp s hv]
  exact extOf_putValue adapterOk s p v t exp

theorem extOf_afterPar (p : NodePath) (s s₁ : EngState) (t : Nat)
    (h : ExtOf adapterOk s s₁) :
    ExtOf adapterOk s
      (match p with
       | [] => s₁
       | seg :: par => cacheAdd (putDirUp adapterOk t par s₁) par seg) := by
  cases p with
  | nil => exact h
  | cons seg par =>
    exact extOf_trans adapterOk
      (extOf_trans adapterOk h (extOf_putDirUp adapterOk t par s₁))
      (extOf_cacheAdd adapterOk _ par seg)

mutual

theorem extOf_put : ∀ (v : JsonVal) (p : NodePath) (t : Nat) (exp : Option Nat)
    (s : EngState), ExtOf adapterOk s (put adapterOk p v t exp s)
  | JsonVal.null, p, t, exp, s => by
    rw [put_unfold]
    exact extOf_afterPar adapterOk p s _ t (extOf_putLocalPart_leaf adapterOk p _ t exp s rfl)
  | JsonVal.bool b, p, t, exp, s => by
    rw [put_unfold]
    exact extOf_afterPar adapterOk p s _ t (extOf_putLocalPart_leaf adapterOk p _ t exp s rfl)
  | JsonVal.num n, p, t, exp, s => by
    rw [put_unfold]
    exact extOf_afterPar adapterOk p s _ t (extOf_putLocalPart_leaf adapterOk p _ t exp s rfl)
  | JsonVal.str st, p, t, exp, s => by
    rw [put_unfold]
    exact extOf_afterPar adapterOk p s _ t (extOf_putLocalPart_leaf adapterOk p _ t exp s rfl)
  | JsonVal.arr xs, p, t, exp, s => by
    rw [put_unfold]
    exact extOf_afterPar adapterOk p s _ t (extOf_putLocalPart_leaf adapterOk p _ t exp s rfl)
  | JsonVal.obj JsonFields.nil, p, t, exp, s => by
    rw [put_unfold]
    exact extOf_afterPar adapterOk p s _ t (extOf_putLocalPart_leaf adapterOk p _ t exp s rfl)
  | JsonVal.obj (JsonFields.cons k v0 tl), p, t, exp, s => by
    rw [put_unfold]
    refine extOf_afterPar adapterOk p s _ t ?_
    rw [putLocalPart_obj]
    exact extOf_trans adapterOk
      (extOf_emit adapterOk s ⟨p, DIRECTORY_VALUE, t, exp⟩)
      (extOf_putChildren (JsonFields.cons k v0 tl) p t _)

theorem extOf_putChildren : ∀ (fs : JsonFields) (p : NodePath) (t : Nat) (s : EngState),
    ExtOf adapterOk s (putChildren adapterOk p fs t s)
  | JsonFields.nil, p, t, s => extOf_refl adapterOk s
  | JsonFields.cons k vk tl, p, t, s => by
    show ExtOf adapterOk s
      (putChildren adapterOk p tl t (put adapterOk (k :: p) vk t none (cacheAdd s p k)))
    exact extOf_trans adapterOk
      (extOf_trans adapterOk (extOf_cacheAdd adapterOk s p k)
        (extOf_put vk (k :: p) t none (cacheAdd s p k)))
      (extOf_putChildren tl p t _)

end


theorem putChildren_nil_eq (p : NodePath) (t : Nat) (s : EngState) :
    putChildren adapterOk p JsonFields.nil t s = s := rfl

theorem putChildren_cons_eq (p : NodePath) (k : String) (vk : JsonVal)
    (tl : JsonFields) (t : Nat) (s : EngState) :
    putChildren adapterOk p (JsonFields.cons k vk tl) t s =
      putChildren adapterOk p tl t (put adapterOk (k :: p) vk t none (cacheAdd s p k)) := rfl

theorem put_store_anc_leaf (v : JsonVal) (seg : String) (par : NodePath) (t : Nat)
    (exp : Option Nat) (s : EngState) (j : Nat) (hv : isNonEmptyObj v = false)
    (hj : j ≤ par.length) :
    lookupStore (put adapterOk (seg :: par) v t exp s).store (par.drop j) =
      lwwApply ⟨DIRECTORY_VALUE, t, none⟩ (lookupStore s.store (par.drop j)) := by
  rw [put_unfold, putLocalPart_leaf adapterOk _ v t exp s hv]
  rw [cacheAdd_store, putDirUp_store_chain adapterOk t par _ j hj]
  rw [putValue_store, lookup_set, if_neg (by
    intro hc
    have : (par.drop j).length = (seg :: par).length := by rw [hc]
    simp only [List.length_cons, List.length_drop] at this
    omega)]

mutual

theorem put_store_anc : ∀ (v : JsonVal) (seg : String) (par : NodePath) (t : Nat)
    (exp : Option Nat) (s : EngState) (j : Nat), j ≤ par.length →
    lookupStore (put adapterOk (seg :: par) v t exp s).store (par.drop j) =
      lwwApply ⟨DIRECTORY_VALUE, t, none⟩ (lookupStore s.store (par.drop j))
  | JsonVal.null, seg, par, t, exp, s, j, hj =>
    put_store_anc_leaf adapterOk _ seg par t exp s j rfl hj
  | JsonVal.bool b, seg, par, t, exp, s, j, hj =>
    put_store_anc_leaf adapterOk _ seg par t exp s j rfl hj
  | JsonVal.num n, seg, par, t, exp, s, j, hj =>
    put_store_anc_leaf adapterOk _ seg par t exp s j rfl hj
  | JsonVal.str st, seg, par, t, exp, s, j, hj =>
    put_store_anc_leaf adapterOk _ seg par t exp s j rfl hj
  | JsonVal.arr xs, seg, par, t, exp, s, j, hj =>
    put_store_anc_leaf adapterOk _ seg par t exp s j rfl hj
  | JsonVal.obj JsonFields.nil, seg, par, t, exp, s, j, hj =>
    put_store_anc_leaf adapterOk _ seg par t exp s j rfl hj
  | JsonVal.obj (JsonFields.cons k v0 tl), seg, par, t, exp, s, j, hj => by
    rw [put_unfold, putLocalPart_obj]
    rw [cacheAdd_store, putDirUp_store_chain adapterOk t par _ j hj]
    have hq : par.drop j = (seg :: par).drop (j + 1) := by simp
    rw [hq, putChildren_store_anc (JsonFields.cons k v0 tl) (seg :: par) t _ (j + 1)
      (by simp [hj]) (by intro h; cases h)]
    rw [emit_store, lookup_set, if_neg (by
      intro hc
      have : ((seg :: par).drop (j + 1)).length = (seg :: par).length := by rw [hc]
      simp only [List.length_cons, List.length_drop] at this
      omega)]
    rw [lwwApply_same_time _ _ _ rfl]

theorem putChildren_store_anc : ∀ (fs : JsonFields) (p : NodePath) (t : Nat)
    (s : EngState) (j : Nat), j ≤ p.length → fs ≠ JsonFields.nil →
    lookupStore (putChildren adapterOk p fs t s).store (p.drop j) =
      lwwApply ⟨DIRECTORY_VALUE, t, none⟩ (lookupStore s.store (p.drop j))
  | JsonFields.nil, _, _, _, _, _, hne => absurd rfl hne
  | JsonFields.cons k vk tl, p, t, s, j, hj, _ => by
    rw [putChildren_cons_eq]
    have hput : lookupStore (put adapterOk (k :: p) vk t none (cacheAdd s p k)).store (p.drop j) =
        lwwApply ⟨DIRECTORY_VALUE, t, none⟩ (lookupStore s.store (p.drop j)) := by
      rw [put_store_anc vk k p t none (cacheAdd s p k) j hj, cacheAdd_store]
    cases tl with
    | nil =>
      rw [putChildren_nil_eq]
      exact hput
    | cons k2 v2 tl2 =>
      rw [putChildren_store_anc (JsonFields.cons k2 v2 tl2) p t _ j hj (by intro h; cases h),
        hput, lwwApply_same_time _ _ _ rfl]

end

theorem put_store_untouched_leaf (v : JsonVal) (p : NodePath) (t : Nat)
    (exp : Option Nat) (s : EngState) (q : NodePath) (hv : isNonEmptyObj v = false)
    (h1 : ∀ r : List String, q ≠ r ++ p) (h2 : ∀ j, j ≤ p.length → q ≠ p.drop j) :
    lookupStore (put adapterOk p v t exp s).store q = lookupStore s.store q := by
  have hqp : q ≠ p := by simpa using h1 []
  rw [put_unfold, putLocalPart_leaf adapterOk _ v t exp s hv]
  cases p with
  | nil =>
    rw [putValue_store, lookup_set, if_neg hqp]
  | cons seg par =>
    rw [cacheAdd_store, putDirUp_store_off_chain adapterOk t par _ q
      (fun j hj => by
        have := h2 (j + 1) (by simpa using hj)
        simpa using this)]
    rw [putValue_store, lookup_set, if_neg hqp]

mutual

theorem put_store_untouched : ∀ (v : JsonVal) (p : NodePath) (t : Nat)
    (exp : Option Nat) (s : EngState) (q : NodePath),
    (∀ r : List String, q ≠ r ++ p) → (∀ j, j ≤ p.length → q ≠ p.drop j) →
    lookupStore (put adapterOk p v t exp s).store q = lookupStore s.store q
  | JsonVal.null, p, t, exp, s, q, h1, h2 =>
    put_store_untouched_leaf adapterOk _ p t exp s q rfl h1 h2
  | JsonVal.bool b, p, t, exp, s, q, h1, h2 =>
    put_store_untouched_leaf adapterOk _ p t exp s q rfl h1 h2
  | JsonVal.num n, p, t, exp, s, q, h1, h2 =>
    put_store_untouched_leaf adapterOk _ p t exp s q rfl h1 h2
  | JsonVal.str st, p, t, exp, s, q, h1, h2 =>
    put_store_untouched_leaf adapterOk _ p t exp s q rfl h1 h2
  | JsonVal.arr xs, p, t, exp, s, q, h1, h2 =>
    put_store_untouched_leaf adapterOk _ p t exp s q rfl h1 h2
  | JsonVal.obj JsonFields.nil, p, t, exp, s, q, h1, h2 =>
    put_store_untouched_leaf adapterOk _ p t exp s q rfl h1 h2
  | JsonVal.obj (JsonFields.cons k v0 tl), p, t, exp, s, q, h1, h2 => by
    have hqp : q ≠ p := by simpa using h1 []
    rw [put_unfold, putLocalPart_obj]
    have hmid := putChildren_store_untouched (JsonFields.cons k v0 tl) p t
      (emit adapterOk s ⟨p, DIRECTORY_VALUE, t, exp⟩) q h1 h2
    cases p with
    | nil =>
      rw [hmid, emit_store, lookup_set, if_neg hqp]
    | cons seg par =>
      rw [cacheAdd_store, putDirUp_store_off_chain adapterOk t par _ q
        (fun j hj => by
          have := h2 (j + 1) (by simpa using hj)
          simpa using this)]
      rw [hmid, emit_store, lookup_set, if_neg hqp]

theorem putChildren_store_untouched : ∀ (fs : JsonFields) (p : NodePath) (t : Nat)
    (s : EngState) (q : NodePath),
    (∀ r : List String, q ≠ r ++ p) → (∀ j, j ≤ p.length → q ≠ p.drop j) →
    lookupStore (putChildren adapterOk p fs t s).store q = lookupStore s.store q
  | JsonFields.nil, p, t, s, q, _, _ => by rw [putChildren_nil_eq]
  | JsonFields.cons k vk tl, p, t, s, q, h1, h2 => by
    rw [putChildren_cons_eq]
    have hput : lookupStore (put adapterOk (k :: p) vk t none (cacheAdd s p k)).store q =
        lookupStore s.store q := by
      rw [put_store_untouched vk (k :: p) t none (cacheAdd s p k) q
        (fun r => by
          have := h1 (r ++ [k])
          simpa [List.append_assoc] using this)
        (fun j hj => by
          cases j with
          | zero => simpa using h1 [k]
          | succ j' =>
            have := h2 j' (by simpa using hj)
            simpa using this)]
      rw [cacheAdd_store]
    rw [putChildren_store_untouched tl p t _ q h1 h2, hput]

end

/-- The value a `put` writes at its own path: the directory marker for a
non-empty object (decomposition), the value itself otherwise. -/
def leafHead (v : JsonVal) : JsonVal :=
  if isNonEmptyObj v then DIRECTORY_VALUE else v

/-- The `expiresAt` observable at a `put`'s own path: for a non-empty
object the children's propagated directory writes (with no `expiresAt`)
overwrite the initial marker write at the same timestamp. -/
def leafExp (v : JsonVal) (exp : Option Nat) : Option Nat :=
  if isNonEmptyObj v then none else exp

theorem leafExp_none (v : JsonVal) : leafExp v none = none := by
  unfold leafExp
  split <;> rfl

theorem extOf_afterPar' (p : NodePath) (s₁ : EngState) (t : Nat) :
    ExtOf adapterOk s₁
      (match p with
       | [] => s₁
       | seg :: par => cacheAdd (putDirUp adapterOk t par s₁) par seg) := by
  cases p with
  | nil => exact extOf_refl adapterOk s₁
  | cons seg par =>
    exact extOf_trans adapterOk (extOf_putDirUp adapterOk t par s₁)
      (extOf_cacheAdd adapterOk _ par seg)

theorem afterPar_store_self (p : NodePath) (s₁ : EngState) (t : Nat) :
    lookupStore
      (match p with
       | [] => s₁
       | seg :: par => cacheAdd (putDirUp adapterOk t par s₁) par seg).store p =
      lookupStore s₁.store p := by
  cases p with
  | nil => rfl
  | cons seg par =>
    rw [cacheAdd_store, putDirUp_store_off_chain adapterOk t par _ (seg :: par)
      (fun j hj => by
        intro hc
        have : (seg :: par).length = (par.drop j).length := by rw [hc]
        simp only [List.length_cons, List.length_drop] at this
        omega)]

/-- The value observable at the written node's own path after a `put`:
one last-write-wins application of the value the node persists for
itself. -/
theorem put_store_self : ∀ (v : JsonVal) (p : NodePath) (t : Nat) (exp : Option Nat)
    (s : EngState),
    lookupStore (put adapterOk p v t exp s).store p =
      lwwApply ⟨leafHead v, t, leafExp v exp⟩ (lookupStore s.store p) := by
  have hleaf : ∀ (v : JsonVal) (p : NodePath) (t : Nat) (exp : Option Nat) (s : EngState),
      isNonEmptyObj v = false →
      lookupStore (put adapterOk p v t exp s).store p =
        lwwApply ⟨leafHead v, t, leafExp v exp⟩ (lookupStore s.store p) := by
    intro v p t exp s hv
    rw [put_unfold, afterPar_store_self, putLocalPart_leaf adapterOk _ v t exp s hv]
    rw [putValue_store, lookup_set, if_pos rfl]
    simp [leafHead, leafExp, hv]
  intro v p t exp s
  cases v with
  | null => exact hleaf _ p t exp s rfl
  | bool b => exact hleaf _ p t exp s rfl
  | num n => exact hleaf _ p t exp s rfl
  | str st => exact hleaf _ p t exp s rfl
  | arr xs => exact hleaf _ p t exp s rfl
  | obj fs =>
    cases fs with
    | nil => exact hleaf _ p t exp s rfl
    | cons k v0 tl =>
      rw [put_unfold, afterPar_store_self, putLocalPart_obj]
      have hch := putChildren_store_anc adapterOk (JsonFields.cons k v0 tl) p t
        (emit adapterOk s ⟨p, DIRECTORY_VALUE, t, exp⟩) 0 (Nat.zero_le _)
        (by intro h; cases h)
      simp only [List.drop_zero] at hch
      rw [hch, emit_store, lookup_set, if_pos rfl]
      simp only [leafHead, leafExp, isNonEmptyObj, if_true]
      exact lwwApply_same_time _ _ _ rfl

/-- The first adapter `set` a `put` initiates is the write for the node
itself: the directory marker for a non-empty object (initiated before
any child write), the leaf value otherwise; it carries the call's
`updatedAt` and `expiresAt`. -/
theorem put_trace_head : ∀ (v : JsonVal) (p : NodePath) (t : Nat) (exp : Option Nat)
    (s : EngState),
    ∃ Δ, (put adapterOk p v t exp s).trace =
      s.trace ++ (⟨p, leafHead v, t, exp⟩ : SetEvent) :: Δ := by
  have hstep : ∀ (p : NodePath) (s₁ : EngState) (t : Nat) (e : SetEvent)
      (l mid : List SetEvent), s₁.trace = l ++ e :: mid →
      ∃ Δ, (match p with
            | [] => s₁
            | seg :: par => cacheAdd (putDirUp adapterOk t par s₁) par seg).trace =
        l ++ e :: Δ := by
    intro p s₁ t e l mid h
    obtain ⟨Δ₂, hΔ₂, _⟩ := extOf_afterPar' adapterOk p s₁ t
    exact ⟨mid ++ Δ₂, by simp [hΔ₂, h]⟩
  have hleaf : ∀ (v : JsonVal) (p : NodePath) (t : Nat) (exp : Option Nat) (s : EngState),
      isNonEmptyObj v = false →
      ∃ Δ, (put adapterOk p v t exp s).trace =
        s.trace ++ (⟨p, leafHead v, t, exp⟩ : SetEvent) :: Δ := by
    intro v p t exp s hv
    rw [put_unfold, putLocalPart_leaf adapterOk _ v t exp s hv]
    refine hstep p _ t _ s.trace [] ?_
    simp only [leafHead, hv, Bool.false_eq_true, if_false]
    unfold putValue
    by_cases hd : isDirectory v <;> simp [hd, emit, clearChildren]
  intro v p t exp s
  cases v with
  | null => exact hleaf _ p t exp s rfl
  | bool b => exact hleaf _ p t exp s rfl
  | num n => exact hleaf _ p t exp s rfl
  | str st => exact hleaf _ p t exp s rfl
  | arr xs => exact hleaf _ p t exp s rfl
  | obj fs =>
    cases fs with
    | nil => exact hleaf _ p t exp s rfl
    | cons k v0 tl =>
      rw [put_unfold, putLocalPart_obj]
      obtain ⟨Δ₁, hΔ₁, _⟩ := extOf_putChildren adapterOk (JsonFields.cons k v0 tl) p t
        (emit adapterOk s ⟨p, DIRECTORY_VALUE, t, exp⟩)
      have hev : (putChildren adapterOk p (JsonFields.cons k v0 tl) t
          (emit adapterOk s ⟨p, DIRECTORY_VALUE, t, exp⟩)).trace =
          s.trace ++ (⟨p, DIRECTORY_VALUE, t, exp⟩ : SetEvent) :: Δ₁ := by
        rw [hΔ₁]
        simp [emit]
      obtain ⟨Δ, hΔ⟩ := hstep p _ t ⟨p, DIRECTORY_VALUE, t, exp⟩ s.trace Δ₁ hev
      exact ⟨Δ, by simpa [leafHead, isNonEmptyObj] using hΔ⟩

/-- A child `put` under `p` leaves the store entry of a differently
named sibling child of `p` unchanged. -/
theorem put_other_child_untouched (k k' : String) (p : NodePath) (v : JsonVal)
    (t : Nat) (exp : Option Nat) (s : EngState) (hne : k ≠ k') :
    lookupStore (put adapterOk (k' :: p) v t exp s).store (k :: p) =
      lookupStore s.store (k :: p) := by
  refine put_store_untouched adapterOk v (k' :: p) t exp s (k :: p) ?_ ?_
  · intro r hc
    have hlen := congrArg List.length hc
    simp only [List.length_cons, List.length_append] at hlen
    have hr : r = [] := List.length_eq_zero.mp (by omega)
    subst hr
    simp only [List.nil_append] at hc
    exact hne (List.head_eq_of_cons_eq hc)
  · intro j hj hc
    cases j with
    | zero =>
      simp only [List.drop_zero] at hc
      exact hne (List.head_eq_of_cons_eq hc)
    | succ j' =>
      have hlen := congrArg List.length hc
      simp only [List.length_cons, List.length_drop] at hlen
      simp only [List.length_cons] at hj
      omega

/-- Lemma: `putChildren` leaves the store entry of a child name that is not
among the keys unchanged. -/
theorem putChildren_sibling_untouched : ∀ (fs : JsonFields) (p : NodePath) (t : Nat)
    (s : EngState) (k : String), k ∉ (fieldsList fs).map Prod.fst →
    lookupStore (putChildren adapterOk p fs t s).store (k :: p) =
      lookupStore s.store (k :: p)
  | JsonFields.nil, p, t, s, k, _ => by rw [putChildren_nil_eq]
  | JsonFields.cons k' v' tl, p, t, s, k, hk => by
    rw [putChildren_cons_eq]
    have hk' : k ≠ k' := by
      intro h
      exact hk (by simp [fieldsList, h])
    have htl : k ∉ (fieldsList tl).map Prod.fst := by
      intro h
      exact hk (by simp [fieldsList, h])
    rw [putChildren_sibling_untouched tl p t _ k htl,
      put_other_child_untouched adapterOk k k' p v' t none _ hk', cacheAdd_store]

/-- After `putChildren` over fields with pairwise distinct keys, each
child path holds one last-write-wins application of that key's value
(the directory marker when the value decomposes further). -/
theorem putChildren_store_child : ∀ (fs : JsonFields) (p : NodePath) (t : Nat)
    (s : EngState) (k : String) (vk : JsonVal), (k, vk) ∈ fieldsList fs →
    ((fieldsList fs).map Prod.fst).Nodup →
    lookupStore (putChildren adapterOk p fs t s).store (k :: p) =
      lwwApply ⟨leafHead vk, t, none⟩ (lookupStore s.store (k :: p))
  | JsonFields.nil, p, t, s, k, vk, hm, _ => by simp [fieldsList] at hm
  | JsonFields.cons k' v' tl, p, t, s, k, vk, hm, hnd => by
    rw [putChildren_cons_eq]
    simp only [fieldsList, List.map_cons, List.nodup_cons] at hnd
    obtain ⟨hk'tl, hndtl⟩ := hnd
    simp only [fieldsList, List.mem_cons] at hm
    rcases hm with hm | hm
    · obtain ⟨hk, hv⟩ := Prod.mk.injEq .. ▸ hm
      subst hk
      subst hv
      have hsib : k ∉ (fieldsList tl).map Prod.fst := hk'tl
      rw [putChildren_sibling_untouched adapterOk tl p t _ k hsib]
      have hself := put_store_self adapterOk vk (k :: p) t none (cacheAdd s p k)
      rw [leafExp_none] at hself
      rw [hself, cacheAdd_store]
    · have hkmem : k ∈ (fieldsList tl).map Prod.fst := by
        exact List.mem_map_of_mem Prod.fst hm
      have hk' : k ≠ k' := by
        intro h
        exact hk'tl (h ▸ hkmem)
      rw [putChildren_store_child tl p t _ k vk hm hndtl,
        put_other_child_untouched adapterOk k k' p v' t none _ hk', cacheAdd_store]

/-- Every field of a decomposed object produces, inside the `set` calls
the `put` awaits, a write for that child path with the same `updatedAt`
(the first write of the child's own recursive `put`). -/
theorem putChildren_child_evt : ∀ (fs : JsonFields) (p : NodePath) (t : Nat)
    (s : EngState) (k : String) (vk : JsonVal), (k, vk) ∈ fieldsList fs →
    ∃ Δ, (putChildren adapterOk p fs t s).trace = s.trace ++ Δ ∧
      (⟨k :: p, leafHead vk, t, none⟩ : SetEvent) ∈ Δ
  | JsonFields.nil, p, t, s, k, vk, hm => by simp [fieldsList] at hm
  | JsonFields.cons k' v' tl, p, t, s, k, vk, hm => by
    rw [putChildren_cons_eq]
    simp only [fieldsList, List.mem_cons] at hm
    rcases hm with hm | hm
    · obtain ⟨hk, hv⟩ := Prod.mk.injEq .. ▸ hm
      subst hk
      subst hv
      obtain ⟨Δ', hΔ'⟩ := put_trace_head adapterOk vk (k :: p) t none (cacheAdd s p k)
      obtain ⟨Δ₂, hΔ₂, _⟩ := extOf_putChildren adapterOk tl p t
        (put adapterOk (k :: p) vk t none (cacheAdd s p k))
      refine ⟨(⟨k :: p, leafHead vk, t, none⟩ : SetEvent) :: (Δ' ++ Δ₂), ?_, by simp⟩
      rw [hΔ₂, hΔ', cacheAdd_trace]
      simp
    · obtain ⟨Δ₁, hΔ₁, _⟩ := extOf_put adapterOk v' (k' :: p) t none (cacheAdd s p k')
      obtain ⟨Δ₂, hΔ₂, hmem⟩ := putChildren_child_evt tl p t
        (put adapterOk (k' :: p) v' t none (cacheAdd s p k')) k vk hm
      refine ⟨Δ₁ ++ Δ₂, ?_, by simp [hmem]⟩
      rw [hΔ₂, hΔ₁, cacheAdd_trace]
      simp

/-- Writing any value at a node with a parent records a directory-marker
`set` with the same `updatedAt` for every ancestor up to the root. -/
theorem put_trace_dir_anc (v : JsonVal) (seg : String) (par : NodePath) (t : Nat)
    (exp : Option Nat) (s : EngState) (j : Nat) (hj : j ≤ par.length) :
    (⟨par.drop j, DIRECTORY_VALUE, t, none⟩ : SetEvent) ∈
      (put adapterOk (seg :: par) v t exp s).trace := by
  rw [put_unfold]
  show _ ∈ (cacheAdd (putDirUp adapterOk t par (putLocalPart adapterOk (seg :: par) v t exp s)) par seg).trace
  rw [cacheAdd_trace]
  exact putDirUp_emits adapterOk t par _ j hj

/-- Writing any value at a node with a parent ends with the node cached
as a child of its parent. -/
theorem put_cache_parent (v : JsonVal) (seg : String) (par : NodePath) (t : Nat)
    (exp : Option Nat) (s : EngState) :
    seg ∈ (put adapterOk (seg :: par) v t exp s).cache par := by
  rw [put_unfold]
  exact mem_cacheAdd_self _ par seg

/-- The child-handle cache at the written node itself, for a value that
does not decompose: cleared for a non-directory value, untouched for the
directory marker. -/
theorem put_cache_self (v : JsonVal) (p : NodePath) (t : Nat) (exp : Option Nat)
    (s : EngState) (hv : isNonEmptyObj v = false) :
    (put adapterOk p v t exp s).cache p =
      if isDirectory v then s.cache p else [] := by
  rw [put_unfold, putLocalPart_leaf adapterOk _ v t exp s hv]
  cases p with
  | nil =>
    by_cases hd : isDirectory v
    · rw [putValue_cache_dir adapterOk _ _ _ _ _ hd, if_pos hd]
    · rw [putValue_cache_leaf adapterOk _ _ _ _ _ (by simpa using hd)]
      simp [hd]
  | cons seg par =>
    rw [cacheAdd_cache_ne _ _ _ _ (by
      intro hc
      have : (seg :: par).length = par.length := by rw [hc]
      simp only [List.length_cons] at this
      omega)]
    rw [putDirUp_cache_ge adapterOk t par _ _ (by simp)]
    by_cases hd : isDirectory v
    · rw [putValue_cache_dir adapterOk _ _ _ _ _ hd, if_pos hd]
    · rw [putValue_cache_leaf adapterOk _ _ _ _ _ (by simpa using hd)]
      simp [hd]

end PutMutualLemmas

/-! ## Lemmas about `onStep` -/

theorem olderThanLatest_true (lv : JsonVal × Nat) (t' : Nat) (h : t' ≤ lv.2) :
    olderThanLatest (some lv) (some t') = true := by
  simpa [olderThanLatest] using h

theorem olderThanLatest_false_of_lt (lv : JsonVal × Nat) (t' : Nat) (h : lv.2 < t') :
    olderThanLatest (some lv) (some t') = false := by
  simp [olderThanLatest]
  omega

theorem recordLatest_some (s : OnState) (vv : JsonVal) (tn : Nat) :
    recordLatest s (some vv) (some tn) =
      { latestValue := some (vv, tn), openStarted := s.openStarted } := rfl

theorem onStep_drop_stale (rif : Bool) (rec : Nat) (s : OnState) (v : Option JsonVal)
    (t' : Nat) (lv : JsonVal × Nat) (hl : s.latestValue = some lv) (ht : t' ≤ lv.2) :
    onStep rif rec s v (some t') = (s, false, false) := by
  unfold onStep
  rw [hl, olderThanLatest_true lv t' ht]
  simp

theorem onDeliverState_latest (rec : Nat) (s1 : OnState) (v : Option JsonVal) :
    (onDeliverState rec s1 v).latestValue = s1.latestValue := by
  unfold onDeliverState
  split <;> rfl

theorem onStep_accept_records (rif : Bool) (rec : Nat) (s : OnState) (vv : JsonVal)
    (tt : Nat) (h : ∀ lv, s.latestValue = some lv → lv.2 < tt) :
    (onStep rif rec s (some vv) (some tt)).1.latestValue = some (vv, tt) := by
  unfold onStep
  have hold : olderThanLatest s.latestValue (some tt) = false := by
    cases hl : s.latestValue with
    | none => rfl
    | some lv => exact olderThanLatest_false_of_lt lv tt (h lv hl)
  rw [hold]
  rw [if_neg (by simp)]
  rw [if_neg (by simp)]
  exact onDeliverState_latest rec _ _

theorem onStep_latest_change (rif : Bool) (rec : Nat) (s : OnState) (v : Option JsonVal)
    (t : Option Nat) :
    (onStep rif rec s v t).1.latestValue = s.latestValue ∨
      ∃ vv tt, v = some vv ∧ t = some tt ∧
        (onStep rif rec s v t).1.latestValue = some (vv, tt) ∧
        ∀ lv, s.latestValue = some lv → lv.2 < tt := by
  have hid : ∀ h1 : recordLatest s v t = s,
      (onStep rif rec s v t).1.latestValue = s.latestValue := by
    intro h1
    unfold onStep
    split
    · rfl
    · split
      · rfl
      · rw [h1]
        exact onDeliverState_latest rec s v
  cases v with
  | none => exact Or.inl (hid rfl)
  | some vv =>
    cases t with
    | none => exact Or.inl (hid rfl)
    | some tt =>
      cases hl : s.latestValue with
      | none =>
        right
        exact ⟨vv, tt, rfl, rfl, onStep_accept_records rif rec s vv tt (by simp [hl]),
          by simp [hl]⟩
      | some lv =>
        by_cases hle : tt ≤ lv.2
        · left
          rw [onStep_drop_stale rif rec s (some vv) tt lv hl hle]
          exact hl
        · right
          refine ⟨vv, tt, rfl, rfl, onStep_accept_records rif rec s vv tt ?_, ?_⟩
          · intro lv' hlv'
            rw [hl] at hlv'
            cases hlv'
            omega
          · intro lv' hlv'
            cases hlv'
            omega

/-- Claim C1: for an `on` subscription, once a notification with a
defined value and a defined timestamp has been accepted, any later
notification whose defined `updatedAt` is at most the recorded latest
timestamp is dropped without touching the state and without invoking
the subscriber's callback; an accepted defined-value defined-timestamp
notification records exactly its own pair as the new latest, and the
recorded latest changes only to such a strictly newer accepted pair.
All notification sources (every adapter as well as the in-process
`notifyChange` fast path) run this same closure over the same state, so
suppression is by timestamp, not call order. -/
theorem on_subscription_last_write_wins :
    (∀ (rif : Bool) (rec : Nat) (s : OnState) (v : Option JsonVal) (t' : Nat)
      (lv : JsonVal × Nat), s.latestValue = some lv → t' ≤ lv.2 →
      onStep rif rec s v (some t') = (s, false, false)) ∧
    (∀ (rif : Bool) (rec : Nat) (s : OnState) (vv : JsonVal) (tt : Nat),
      (∀ lv, s.latestValue = some lv → lv.2 < tt) →
      (onStep rif rec s (some vv) (some tt)).1.latestValue = some (vv, tt)) ∧
    (∀ (rif : Bool) (rec : Nat) (s : OnState) (v : Option JsonVal) (t : Option Nat),
      (onStep rif rec s v t).1.latestValue = s.latestValue ∨
        ∃ vv tt, v = some vv ∧ t = some tt ∧
          (onStep rif rec s v t).1.latestValue = some (vv, tt) ∧
          ∀ lv, s.latestValue = some lv → lv.2 < tt) :=
  ⟨fun rif rec s v t' lv hl ht => onStep_drop_stale rif rec s v t' lv hl ht,
   fun rif rec s vv tt h => onStep_accept_records rif rec s vv tt h,
   fun rif rec s v t => onStep_latest_change rif rec s v t⟩

/-- Witness for C1 at a concrete input: with latest accepted value
`1` at time 5, an incoming value `2` at time 3 is dropped and the
captured state is unchanged. -/
theorem on_subscription_last_write_wins_witness :
    onStep false 1 ⟨some (JsonVal.num 1, 5), false⟩ (some (JsonVal.num 2)) (some 3) =
      (⟨some (JsonVal.num 1, 5), false⟩, false, false) :=
  on_subscription_last_write_wins.1 false 1 ⟨some (JsonVal.num 1, 5), false⟩
    (some (JsonVal.num 2)) 3 (JsonVal.num 1, 5) rfl (by decide)

/-- Counterexample to claim C9 as stated: a notification carrying a
defined value (the directory marker) and an undefined `updatedAt`, on a
subscription with recursion budget 1 that has already accepted a value
at time 5, passes the staleness check but is NOT delivered to the
subscriber's callback (line 182: a directory value with a positive
budget is routed to the nested `open` instead of the callback). -/
theorem on_undefined_ts_cex :
    (onStep false 1 ⟨some (JsonVal.num 0, 5), false⟩ (some DIRECTORY_VALUE) none).2.1
      = false := rfl

/-- Claim C9 as amended: a notification with a defined value and an
undefined `updatedAt` is never dropped by the staleness check and never
updates the recorded latest value; it is delivered to the subscriber's
callback exactly when the value is not a directory or the recursion
budget is 0 (a directory value with a positive budget is handed to the
nested `open` subscription instead of the callback). -/
theorem on_undefined_ts_amended (rif : Bool) (rec : Nat) (s : OnState) (vv : JsonVal) :
    (onStep rif rec s (some vv) none).1.latestValue = s.latestValue ∧
      (onStep rif rec s (some vv) none).2.1 = (!isDirectory vv || rec == 0) := by
  unfold onStep
  have hold : olderThanLatest s.latestValue none = false := by
    cases s.latestValue <;> rfl
  rw [hold]
  rw [if_neg (by simp)]
  rw [if_neg (by simp)]
  constructor
  · exact onDeliverState_latest rec _ _
  · rfl

/-! ## Claims about `notifyChange` and `once` -/

/-- Claim C7 evaluated at its failing input: with two `on`-subscribers
(ids 0 and 1, both with recursion budget 1, in insertion order) and a
non-directory value, a throwing callback of subscriber 0 ends the
`forEach` iteration — subscriber 1 never receives the notification —
whereas with no throwing subscriber both are invoked.  The dispatch
loop of `Node.notifyChange` (lines 200-206) has no try/catch, so the
exception propagates out of `forEach` and the remaining subscribers are
skipped, contrary to the isolation the specification requires. -/
theorem notify_dispatch_stops_on_throw :
    notifyChangeRun [(0, 1), (1, 1)] (JsonVal.num 5) (fun i => i == 0) = ([0], false) ∧
      notifyChangeRun [(0, 1), (1, 1)] (JsonVal.num 5) (fun _ => false) = ([0, 1], true) := by
  constructor <;> rfl

/-- The `once` system after delivering the value `1` at time 1 through
the in-process `notifyChange` fast path (a `put` on the node). -/
def onceAfterFirst : OnceSys :=
  onceNotify false 1 onceInit NotifSource.inProcess (some (JsonVal.num 1)) (some 1)

/-- The same system after a second, newer notification through the
adapter channel. -/
def onceAfterSecond : OnceSys :=
  onceNotify false 1 onceAfterFirst (NotifSource.adapterGet 0)
    (some (JsonVal.num 2)) (some 2)

/-- Claim C5 evaluated at its failing input: after the first accepted
notification (value 1 at time 1, delivered by the in-process
`notifyChange` fast path), the promise is resolved and the caller's
callback has run exactly once — but the subscription is NOT
unsubscribed: the `on_subscriptions` entry is still present and the
adapter `get` subscription is still active, because `once` discards the
`unsubscribeAll` returned by `this.on(...)` and calls only the
notification's fourth argument, which is the no-op `() => {}` on this
path (line 203).  A later notification still reaches the wrapper (the
subscription is live) and only the `resolved` flag prevents a second
delivery. -/
theorem once_subscription_left_registered :
    onceAfterFirst.resolved = true ∧
      onceAfterFirst.resolveCount = 1 ∧
      onceAfterFirst.cbCount = 1 ∧
      onceAfterFirst.onEntry = true ∧
      onceAfterFirst.adapterSubs = [true] ∧
      onceAfterSecond.cbCount = 1 ∧
      onceAfterSecond.resolveCount = 1 ∧
      onceAfterSecond.onEntry = true := by
  refine ⟨rfl, rfl, rfl, rfl, rfl, rfl, rfl, rfl⟩

/-! ## Claim about unsubscribe functions -/

mutual

theorem mapSub_unsub_idem : ∀ m : MapSub, MapSub.unsub (MapSub.unsub m) = MapSub.unsub m
  | MapSub.mk e a n => by
    simp only [MapSub.unsub, List.map_map]
    rw [mapSubs_unsubAll_idem n]
    rfl

theorem mapSubs_unsubAll_idem : ∀ n : MapSubs,
    MapSubs.unsubAll (MapSubs.unsubAll n) = MapSubs.unsubAll n
  | MapSubs.nil => rfl
  | MapSubs.cons m rest => by
    simp only [MapSubs.unsubAll]
    rw [mapSub_unsub_idem m, mapSubs_unsubAll_idem rest]

end

mutual

theorem mapSub_unsub_inactive : ∀ m : MapSub, MapSub.anyActive (MapSub.unsub m) = false
  | MapSub.mk e a n => by
    simp only [MapSub.unsub, MapSub.anyActive, List.map_map]
    rw [mapSubs_unsubAll_inactive n]
    simp [List.any_map]

theorem mapSubs_unsubAll_inactive : ∀ n : MapSubs,
    MapSubs.anyActiveList (MapSubs.unsubAll n) = false
  | MapSubs.nil => rfl
  | MapSubs.cons m rest => by
    simp only [MapSubs.unsubAll, MapSubs.anyActiveList]
    rw [mapSub_unsub_inactive m, mapSubs_unsubAll_inactive rest]
    rfl

end

theorem any_id_map_false (a : List Bool) : (a.map fun _ => false).any id = false := by
  induction a with
  | nil => rfl
  | cons b tl ih => simp [ih]

/-- Claim C6: for any `on` subscription (its `on_subscriptions` entry,
per-adapter `get` subscriptions, and at most one nested `open`) and any
`map` subscription (its `map_subscriptions` entry, per-adapter `list`
subscriptions, and its nested `open` subscriptions), the unsubscribe
function is idempotent — calling it a second time leaves exactly the
state of the first call — and after one call no notification channel of
the subscription is active any more: not the table entry used by the
in-process fast path, not any adapter subscription, and not any channel
of a nested subscription it spawned, so no further callback invocation
can occur on it. -/
theorem unsubscribe_idempotent_and_silent (s : OnSub) (m : MapSub) :
    OnSub.unsubAll (OnSub.unsubAll s) = OnSub.unsubAll s ∧
      OnSub.anyActive (OnSub.unsubAll s) = false ∧
      MapSub.unsub (MapSub.unsub m) = MapSub.unsub m ∧
      MapSub.anyActive (MapSub.unsub m) = false := by
  refine ⟨?_, ?_, mapSub_unsub_idem m, mapSub_unsub_inactive m⟩
  · unfold OnSub.unsubAll
    dsimp only
    rw [List.map_map]
    cases h : s.nestedOpen with
    | none => rfl
    | some mo =>
      dsimp only [Option.map]
      rw [mapSub_unsub_idem mo]
      rfl
  · unfold OnSub.unsubAll OnSub.anyActive
    dsimp only
    rw [any_id_map_false]
    cases h : s.nestedOpen with
    | none => rfl
    | some mo =>
      dsimp only [Option.map]
      rw [mapSub_unsub_inactive mo]
      rfl

/-! ## Claims about `Node.get` and `Node.open` -/

theorem getChild_found (s : GetState) (n : Nat) (seg : String) (c : Nat)
    (h : findChild s.edges n seg = some c) : getChild s n seg = (s, c) := by
  unfold getChild
  rw [h]

theorem getChild_miss (s : GetState) (n : Nat) (seg : String)
    (h : findChild s.edges n seg = none) :
    getChild s n seg = (⟨s.nextId + 1, (n, seg, s.nextId) :: s.edges⟩, s.nextId) := by
  unfold getChild
  rw [h]

/-- A cached (parent, segment) resolution survives any other `getChild`:
a new edge for the same pair is only ever created on a cache miss. -/
theorem getChild_preserves (s : GetState) (m : Nat) (sg : String) (n : Nat)
    (seg : String) (c : Nat) (h : findChild s.edges n seg = some c) :
    findChild (getChild s m sg).1.edges n seg = some c := by
  cases hf : findChild s.edges m sg with
  | some c' =>
    rw [getChild_found s m sg c' hf]
    exact h
  | none =>
    rw [getChild_miss s m sg hf]
    show findChild ((m, sg, s.nextId) :: s.edges) n seg = some c
    unfold findChild
    by_cases hc : m = n ∧ sg = seg
    · obtain ⟨h1, h2⟩ := hc
      subst h1
      subst h2
      rw [h] at hf
      exact Option.noConfusion hf
    · rw [if_neg hc]
      exact h

theorem getPath_preserves (n : Nat) (seg : String) (c : Nat) :
    ∀ (segs : List String) (s : GetState) (m : Nat),
    findChild s.edges n seg = some c →
    findChild (getPath s m segs).1.edges n seg = some c
  | [], s, m, h => h
  | sg :: rest, s, m, h => by
    show findChild (getPath (getChild s m sg).1 (getChild s m sg).2 rest).1.edges n seg = some c
    exact getPath_preserves n seg c rest (getChild s m sg).1 (getChild s m sg).2
      (getChild_preserves s m sg n seg c h)

theorem getChild_post (s : GetState) (n : Nat) (seg : String) :
    findChild (getChild s n seg).1.edges n seg = some (getChild s n seg).2 := by
  cases hf : findChild s.edges n seg with
  | some c =>
    rw [getChild_found s n seg c hf]
    exact hf
  | none =>
    rw [getChild_miss s n seg hf]
    show findChild ((n, seg, s.nextId) :: s.edges) n seg = some s.nextId
    unfold findChild
    rw [if_pos ⟨rfl, rfl⟩]

theorem getPath_idem : ∀ (segs : List String) (s : GetState) (n : Nat),
    getPath (getPath s n segs).1 n segs = getPath s n segs
  | [], s, n => rfl
  | sg :: rest, s, n => by
    have hpost : findChild (getPath (getChild s n sg).1 (getChild s n sg).2 rest).1.edges n sg =
        some (getChild s n sg).2 :=
      getPath_preserves n sg (getChild s n sg).2 rest (getChild s n sg).1 (getChild s n sg).2
        (getChild_post s n sg)
    show getPath (getPath (getChild s n sg).1 (getChild s n sg).2 rest).1 n (sg :: rest) =
      getPath (getChild s n sg).1 (getChild s n sg).2 rest
    show getPath (getChild (getPath (getChild s n sg).1 (getChild s n sg).2 rest).1 n sg).1
        (getChild (getPath (getChild s n sg).1 (getChild s n sg).2 rest).1 n sg).2 rest = _
    rw [getChild_found _ n sg (getChild s n sg).2 hpost]
    exact getPath_idem rest (getChild s n sg).1 (getChild s n sg).2

theorem getPath_append : ∀ (xs : List String) (ys : List String) (s : GetState) (n : Nat),
    getPath s n (xs ++ ys) = getPath (getPath s n xs).1 (getPath s n xs).2 ys
  | [], ys, s, n => rfl
  | sg :: rest, ys, s, n => by
    show getPath (getChild s n sg).1 (getChild s n sg).2 (rest ++ ys) = _
    exact getPath_append rest ys (getChild s n sg).1 (getChild s n sg).2

/-- Claim C8: resolving the same (pre-split) path twice from the same
node returns the same handle and leaves the handle cache completely
unchanged (no new equivalent node is created: the whole second
resolution, state included, equals the first), and a multi-segment
resolution equals resolving the first part and then the rest from the
resolved intermediate handle — intermediate nodes are created and
cached on first resolution by the same `getChild` steps. -/
theorem get_returns_cached_handle :
    (∀ (s : GetState) (n : Nat) (segs : List String),
      getPath (getPath s n segs).1 n segs = getPath s n segs) ∧
    (∀ (s : GetState) (n : Nat) (xs ys : List String),
      getPath s n (xs ++ ys) = getPath (getPath s n xs).1 (getPath s n xs).2 ys) :=
  ⟨fun s n segs => getPath_idem segs s n, fun s n xs ys => getPath_append xs ys s n⟩

/-- Claim C10: the unsubscribe function `open` passes to its
subscriber's callback on every invocation (line 143, the literal
`() => {}`) has no effect on the underlying `map` subscription state —
it is the identity — while the Unsubscribe value `open` itself returns
(the `map` unsubscriber) does deactivate every channel of the
subscription; hence an `open` subscription can only be cancelled
through the value `open` returns. -/
theorem open_callback_unsub_is_noop :
    (∀ (nodeId : NodePath) (st : OpenAggState) (cv : JsonVal) (path : NodePath)
      (u : Option Nat) (m : MapSub),
      (openStep nodeId st cv path u).2.unsubArg m = m) ∧
    (∀ m : MapSub, MapSub.anyActive (openReturnedUnsub m) = false) :=
  ⟨fun _ _ _ _ _ _ => rfl, fun m => mapSub_unsub_inactive m⟩

/-! ## Claims about the write path -/

/-- A two-field scenario state: `put({a: 1}, 7)` on the node `/d` of an
empty tree, with every adapter `set` succeeding. -/
def c2put : EngState :=
  put (fun _ => true) ["d"]
    (JsonVal.obj (JsonFields.cons "a" (JsonVal.num 1) JsonFields.nil)) 7 none engInit

/-- Counterexample to claim C2 as stated: for `put({a: 1}, 7)` on `/d`
of an empty tree, the very first initiated adapter `set` (trace index 0)
is the directory marker for `/d` itself, and the child write for `/d/a`
is only initiated after it (index 1) — `putChildValues` starts
`adapter.set(this.id, DIRECTORY_VALUE, ...)` before the child `put`s
and merely awaits them together, so the directory marker is not
persisted "only once all children are written". -/
theorem put_object_marker_first_cex :
    c2put.trace.head? = some ⟨["d"], DIRECTORY_VALUE, 7, none⟩ ∧
      c2put.trace =
        [⟨["d"], DIRECTORY_VALUE, 7, none⟩, ⟨["a", "d"], JsonVal.num 1, 7, none⟩,
         ⟨["d"], DIRECTORY_VALUE, 7, none⟩, ⟨[], DIRECTORY_VALUE, 7, none⟩,
         ⟨[], DIRECTORY_VALUE, 7, none⟩] :=
  ⟨rfl, rfl⟩

/-- Claim C2 as amended: a `put` of a non-empty plain object initiates
one batch of adapter `set` calls whose first element is the directory
marker for the node itself (initiated before, and awaited together
with, the child writes — not persisted after them); the batch contains
a write for every key's child path with the same `updatedAt`; the call
resolves only when the whole batch has been applied and succeeds
exactly when every `set` in the batch succeeds (`Promise.all`); and
with pairwise distinct keys the resulting store holds, at each child
path, one last-write-wins application of that key's value (the
directory marker when the value decomposes further) at the same
`updatedAt`, and the directory marker at the node itself. -/
theorem put_object_decomposition_amended (adapterOk : SetEvent → Bool)
    (fs : JsonFields) (p : NodePath) (t : Nat) (exp : Option Nat) (s : EngState)
    (hfs : fs ≠ JsonFields.nil) (hnd : ((fieldsList fs).map Prod.fst).Nodup) :
    (∃ Δ, (put adapterOk p (JsonVal.obj fs) t exp s).trace = s.trace ++ Δ ∧
      (put adapterOk p (JsonVal.obj fs) t exp s).ok = (s.ok && Δ.all adapterOk) ∧
      Δ.head? = some ⟨p, DIRECTORY_VALUE, t, exp⟩ ∧
      ∀ k vk, (k, vk) ∈ fieldsList fs →
        (⟨k :: p, leafHead vk, t, none⟩ : SetEvent) ∈ Δ) ∧
    (∀ k vk, (k, vk) ∈ fieldsList fs →
      lookupStore (put adapterOk p (JsonVal.obj fs) t exp s).store (k :: p) =
        lwwApply ⟨leafHead vk, t, none⟩ (lookupStore s.store (k :: p))) ∧
    lookupStore (put adapterOk p (JsonVal.obj fs) t exp s).store p =
      lwwApply ⟨DIRECTORY_VALUE, t, none⟩ (lookupStore s.store p) := by
  cases fs with
  | nil => exact absurd rfl hfs
  | cons k0 v0 tl =>
  constructor
  · obtain ⟨Δ, hΔt, hΔok⟩ := extOf_put adapterOk
      (JsonVal.obj (JsonFields.cons k0 v0 tl)) p t exp s
    refine ⟨Δ, hΔt, hΔok, ?_, ?_⟩
    · obtain ⟨Δ', hΔ'⟩ := put_trace_head adapterOk
        (JsonVal.obj (JsonFields.cons k0 v0 tl)) p t exp s
      have heq : Δ = (⟨p, DIRECTORY_VALUE, t, exp⟩ : SetEvent) :: Δ' := by
        have hcat : s.trace ++ Δ =
            s.trace ++ (⟨p, DIRECTORY_VALUE, t, exp⟩ : SetEvent) :: Δ' := by
          rw [← hΔt, hΔ']
          rfl
        exact List.append_cancel_left hcat
      rw [heq]
      rfl
    · intro k vk hm
      obtain ⟨Δc, hc1, hc2⟩ := putChildren_child_evt adapterOk
        (JsonFields.cons k0 v0 tl) p t (emit adapterOk s ⟨p, DIRECTORY_VALUE, t, exp⟩)
        k vk hm
      obtain ⟨Δ₂, h21, _⟩ := extOf_afterPar' adapterOk p
        (putChildren adapterOk p (JsonFields.cons k0 v0 tl) t
          (emit adapterOk s ⟨p, DIRECTORY_VALUE, t, exp⟩)) t
      have hfin : (put adapterOk p (JsonVal.obj (JsonFields.cons k0 v0 tl)) t exp s).trace =
          s.trace ++ ((⟨p, DIRECTORY_VALUE, t, exp⟩ : SetEvent) :: (Δc ++ Δ₂)) := by
        rw [put_unfold, putLocalPart_obj, h21, hc1]
        simp [emit]
      have hΔeq : Δ = (⟨p, DIRECTORY_VALUE, t, exp⟩ : SetEvent) :: (Δc ++ Δ₂) :=
        List.append_cancel_left (hΔt ▸ hfin)
      rw [hΔeq]
      simp [hc2]
  constructor
  · intro k vk hm
    rw [put_unfold, putLocalPart_obj]
    have haft : lookupStore
        (match p with
         | [] => putChildren adapterOk p (JsonFields.cons k0 v0 tl) t
             (emit adapterOk s ⟨p, DIRECTORY_VALUE, t, exp⟩)
         | seg :: par => cacheAdd (putDirUp adapterOk t par
             (putChildren adapterOk p (JsonFields.cons k0 v0 tl) t
               (emit adapterOk s ⟨p, DIRECTORY_VALUE, t, exp⟩))) par seg).store (k :: p) =
        lookupStore (putChildren adapterOk p (JsonFields.cons k0 v0 tl) t
          (emit adapterOk s ⟨p, DIRECTORY_VALUE, t, exp⟩)).store (k :: p) := by
      cases p with
      | nil => rfl
      | cons seg par =>
        rw [cacheAdd_store, putDirUp_store_off_chain adapterOk t par _ (k :: seg :: par)
          (fun j hj => by
            intro hc
            have : (k :: seg :: par).length = (par.drop j).length := by rw [hc]
            simp only [List.length_cons, List.length_drop] at this
            omega)]
    rw [haft, putChildren_store_child adapterOk (JsonFields.cons k0 v0 tl) p t _ k vk hm hnd]
    rw [emit_store, lookup_set, if_neg (by
      intro hc
      have : (k :: p).length = p.length := by rw [hc]
      simp only [List.length_cons] at this
      omega)]
  · have h := put_store_self adapterOk (JsonVal.obj (JsonFields.cons k0 v0 tl)) p t exp s
    simpa [leafHead, leafExp, isNonEmptyObj] using h

/-- Witness for the amended C2 at a concrete input: after
`put({a: 1}, 7)` on `/d` of an empty tree, the store holds `1` at time
7 under `/d/a` and the directory marker at time 7 under `/d`. -/
theorem put_object_decomposition_amended_witness :
    lookupStore c2put.store ["a", "d"] = some ⟨JsonVal.num 1, 7, none⟩ ∧
      lookupStore c2put.store ["d"] = some ⟨DIRECTORY_VALUE, 7, none⟩ := by
  have h := put_object_decomposition_amended (fun _ => true)
    (JsonFields.cons "a" (JsonVal.num 1) JsonFields.nil) ["d"] 7 none engInit
    (by intro hc; cases hc) (by decide)
  exact ⟨h.2.1 "a" (JsonVal.num 1) (by simp [fieldsList]), h.2.2⟩

/-- State after `put(7, 100)` at `/a` on an empty tree. -/
def c3s1 : EngState := put (fun _ => true) ["a"] (JsonVal.num 7) 100 none engInit

/-- State after a subsequent `put(1, 50)` at `/a/b` — a write carrying
an explicitly older `updatedAt` than the value stored at `/a`. -/
def c3s2 : EngState := put (fun _ => true) ["b", "a"] (JsonVal.num 1) 50 none c3s1

/-- Counterexample to claim C3 as stated: after the write at `/a/b`,
its ancestor `/a` still holds the leaf value `7` (at time 100) — it is
not in directory mode.  The propagated directory marker carried
`updatedAt = 50` and lost the last-write-wins comparison against the
strictly newer leaf stored at `/a`, so "every ancestor of a written
node is in directory mode" fails. -/
theorem put_ancestor_not_directory_cex :
    lookupStore c3s2.store ["a"] = some ⟨JsonVal.num 7, 100, none⟩ ∧
      isDirectory (JsonVal.num 7) = false :=
  ⟨rfl, rfl⟩

/-- Claim C3 as amended: for every `put` at a node with a parent, after
the local write the engine recursively puts the directory marker with
the same `updatedAt` on every ancestor up to the root (an adapter `set`
with the marker and that timestamp is initiated at each of them), and
the node is ensured to be in its parent's child cache; consequently
each ancestor's stored entry is one last-write-wins application of the
directory marker at the write's `updatedAt` — the marker at that time,
unless a strictly newer value was already stored there (so each
ancestor's stored `updatedAt` is at least the write's, but an ancestor
holding a strictly newer leaf stays a leaf). -/
theorem put_ancestor_propagation_amended (adapterOk : SetEvent → Bool)
    (v : JsonVal) (seg : String) (par : NodePath) (t : Nat) (exp : Option Nat)
    (s : EngState) (j : Nat) (hj : j ≤ par.length) :
    (⟨par.drop j, DIRECTORY_VALUE, t, none⟩ : SetEvent) ∈
        (put adapterOk (seg :: par) v t exp s).trace ∧
      seg ∈ (put adapterOk (seg :: par) v t exp s).cache par ∧
      lookupStore (put adapterOk (seg :: par) v t exp s).store (par.drop j) =
        lwwApply ⟨DIRECTORY_VALUE, t, none⟩ (lookupStore s.store (par.drop j)) :=
  ⟨put_trace_dir_anc adapterOk v seg par t exp s j hj,
   put_cache_parent adapterOk v seg par t exp s,
   put_store_anc adapterOk v seg par t exp s j hj⟩

/-- Witness for the amended C3 at a concrete input: for the stale write
`put(1, 50)` at `/a/b` over a tree whose `/a` holds `7` at time 100, a
directory-marker `set` at time 50 was initiated at `/a`, `b` is in
`/a`'s child cache, and the stored entry at `/a` is the last-write-wins
application of the marker — i.e. the strictly newer leaf survives. -/
theorem put_ancestor_propagation_amended_witness :
    (⟨["a"], DIRECTORY_VALUE, 50, none⟩ : SetEvent) ∈ c3s2.trace ∧
      "b" ∈ c3s2.cache ["a"] ∧
      lookupStore c3s2.store ["a"] =
        lwwApply ⟨DIRECTORY_VALUE, 50, none⟩ (lookupStore c3s1.store ["a"]) := by
  have h := put_ancestor_propagation_amended (fun _ => true) (JsonVal.num 1) "b" ["a"]
    50 none c3s1 0 (by decide)
  exact h

/-- State after `put({a: 1}, 10)` at `/p` on an empty tree. -/
def c4s1 : EngState :=
  put (fun _ => true) ["p"]
    (JsonVal.obj (JsonFields.cons "a" (JsonVal.num 1) JsonFields.nil)) 10 none engInit

/-- State after a subsequent scalar `put(7, 20)` at `/p`. -/
def c4s2 : EngState := put (fun _ => true) ["p"] (JsonVal.num 7) 20 none c4s1

/-- Counterexample to claim C4 as stated: writing the scalar `7` to
`/p`, which previously held `{a: 1}`, does clear `/p`'s child-handle
cache — but the adapter store still holds the entry for `/p/a`, so a
subsequent `map`/`open` subscription on `/p` (which enumerates the
store's direct children through `adapter.list`) is still notified of
the child `a` with value `1`: the previously visible children do NOT
disappear from subsequent `map`/`open` results. -/
theorem leaf_put_children_remain_cex :
    c4s2.cache ["p"] = [] ∧
      listChildren c4s2.store ["p"] = [(["a", "p"], ⟨JsonVal.num 1, 10, none⟩)] ∧
      lookupStore c4s2.store ["p"] = some ⟨JsonVal.num 7, 20, none⟩ :=
  ⟨rfl, rfl, rfl⟩

/-- Claim C4 as amended: for every `put` whose value does not decompose
(anything but a non-empty plain object), the node's child-handle cache
is cleared when the value is not the directory marker, and left
unchanged when it is; the adapter-stored entries of previously written
children are not removed by such a write. -/
theorem put_clears_cache_amended (adapterOk : SetEvent → Bool) (v : JsonVal)
    (p : NodePath) (t : Nat) (exp : Option Nat) (s : EngState)
    (hv : isNonEmptyObj v = false) :
    (put adapterOk p v t exp s).cache p =
      (if isDirectory v then s.cache p else []) :=
  put_cache_self adapterOk v p t exp s hv

/-- Witness for the amended C4 at concrete inputs: a scalar write
clears the cache; a directory-marker write leaves it unchanged. -/
theorem put_clears_cache_amended_witness :
    (put (fun _ => true) ["x"] (JsonVal.num 3) 5 none engInit).cache ["x"] = [] ∧
      (put (fun _ => true) ["x"] DIRECTORY_VALUE 5 none c4s1).cache ["x"] =
        c4s1.cache ["x"] := by
  constructor
  · exact put_clears_cache_amended (fun _ => true) (JsonVal.num 3) ["x"] 5 none engInit rfl
  · exact put_clears_cache_amended (fun _ => true) DIRECTORY_VALUE ["x"] 5 none c4s1 rfl
